import Mathlib

/-!
Verification development for the managed-workflow module
(dispatches/workflow/workflow.py).

The module orchestrates data-processing steps over an external provenance
store (the DMF).  The store is modelled as a list of resources plus a list
of typed relations together with a fresh-identifier counter; the source
obtains unique resource identifiers from the DMF, here they are drawn from
the counter.  Pure fragments of the Python code (Dataset, the factory
functions, the idempotency check of ManagedWorkflow.run, the branch logic
of run_script, and the per-line logic of OutputCollector._redirect) are
translated into executable Lean functions.  Python exceptions are modelled
with Except; the Python None return of a function without a return
statement is modelled as none.
-/

/-- DatasetType.RTS_GMLC from the source. -/
def DatasetType.RTS_GMLC : String := "rts-gmlc"

/-- One entry of the datafiles descriptor of a resource. -/
structure DataFile where
  path : String
  desc : String
deriving DecidableEq

/-- A persisted DMF resource.  The source stores datafiles and
datafiles_dir inside the value dictionary and the name via set_field;
here they are plain fields.  rid stands for the unique identifier the
DMF assigns to each resource. -/
structure Resource where
  rid : Nat
  name : String
  desc : String
  datafiles : List DataFile
  datafiles_dir : String
deriving DecidableEq

/-- The two relation predicates used by the module
(resource.Predicates.uses and resource.Predicates.derived). -/
inductive Predicate
  | uses
  | derived
deriving DecidableEq

/-- A directed typed edge between two resources, recorded by identifier.
The object is an Option because ManagedWorkflow.run links a step to
input_.resource, and a dataset may have no attached resource; the source
would fail inside the external create_relation in that case, a state no
claim exercises. -/
structure Relation where
  subject : Nat
  predicate : Predicate
  object : Option Nat
deriving DecidableEq

/-- The provenance store handle (the DMF collaborator): persisted
resources, committed relations, and the next fresh identifier. -/
structure DMF where
  resources : List Resource
  relations : List Relation
  nextId : Nat
deriving DecidableEq

/-- dmf.find(name=n): all resources whose name equals n. -/
def DMF.find (d : DMF) (n : String) : List Resource :=
  d.resources.filter fun r => decide (r.name = n)

/-- The outgoing uses-predicate relations of the resource with identifier
sid, as collected by the loop over dmf.find_related(proc_step,
outgoing=True, maxdepth=1) in ManagedWorkflow.run. -/
def DMF.usesRelsOf (d : DMF) (sid : Nat) : List Relation :=
  d.relations.filter fun rel =>
    decide (rel.subject = sid ∧ rel.predicate = Predicate.uses)

/-- The set proc_step_input_ids built by ManagedWorkflow.run for one
existing step resource: the identifiers at the target end of its outgoing
uses relations. -/
def DMF.usesIdsOf (d : DMF) (sid : Nat) : Finset (Option Nat) :=
  ((d.usesRelsOf sid).map Relation.object).toFinset

/-- The idempotency check of ManagedWorkflow.run: some existing resource
named qn has an outgoing uses-identifier set that matches the requested
input_ids.  The source compares with an empty set when input_ids is None
and with set equality otherwise. -/
def DMF.stepExists (d : DMF) (qn : String) (input_ids : Option (Finset (Option Nat))) : Bool :=
  (d.find qn).any fun ps =>
    match input_ids with
    | none => decide (d.usesIdsOf ps.rid = (∅ : Finset (Option Nat)))
    | some ids => decide (d.usesIdsOf ps.rid = ids)

/-- dmf.add(r) for a freshly constructed resource: persist it and return
it; the fresh identifier comes from the counter. -/
def DMF.addResource (d : DMF) (n : String) (desc : String) (datafiles : List DataFile)
    (dir : String) : DMF × Resource :=
  let r : Resource := ⟨d.nextId, n, desc, datafiles, dir⟩
  (⟨d.resources ++ [r], d.relations, d.nextId + 1⟩, r)

/-- resource.create_relation followed by the final dmf.update() commit:
the relation ends up in the store.  ManagedWorkflow.run commits all staged
relations before returning, so the staging step is not modelled
separately. -/
def DMF.addRelation (d : DMF) (rel : Relation) : DMF :=
  ⟨d.resources, d.relations ++ [rel], d.nextId⟩

/-- Store well-formedness: every persisted resource and every relation
endpoint was allocated below the fresh-identifier counter.  Every store
reachable through the operations above satisfies this. -/
def DMF.WF (d : DMF) : Prop :=
  (∀ r ∈ d.resources, r.rid < d.nextId) ∧ ∀ rel ∈ d.relations, rel.subject < d.nextId

/-- A file-system path, as the list of its components.  pathlib.Path
values reaching this module are absolute script locations. -/
structure PathM where
  components : List String
deriving DecidableEq

/-- path.name: the final path component. -/
def PathM.name (p : PathM) : String := p.components.getLast?.getD ""

/-- path.parent: the path without its final component. -/
def PathM.parent (p : PathM) : PathM := ⟨p.components.dropLast⟩

/-- Path(s) on a string: split into components. -/
def PathM.parse (s : String) : PathM := ⟨s.splitOn "/"⟩

/-- str(path): join the components. -/
def pathStr (p : PathM) : String := String.intercalate "/" p.components

/-- The values stored in the metadata dictionary of a Dataset: the module
stores strings, paths, file lists and the backing resource there. -/
inductive MetaVal
  | mstr (s : String)
  | mpath (p : PathM)
  | mfiles (fs : List String)
  | mres (r : Resource)
deriving DecidableEq

/-- Python dict assignment self._meta[key] = value: replace the entry in
place when the key is present, append it otherwise. -/
def addMetaList : List (String × MetaVal) → String → MetaVal → List (String × MetaVal)
  | [], k, v => [(k, v)]
  | kv :: rest, k, v =>
    if kv.1 = k then (k, v) :: rest else kv :: addMetaList rest k v

/-- A Dataset: a name and an ordered metadata mapping (a Python dict). -/
structure Dataset where
  name : String
  meta : List (String × MetaVal)
deriving DecidableEq

/-- Dataset.add_meta(key, value): unconditional dict assignment. -/
def Dataset.add_meta (d : Dataset) (k : String) (v : MetaVal) : Dataset :=
  ⟨d.name, addMetaList d.meta k v⟩

/-- The membership test key in self._meta. -/
def Dataset.hasKey (d : Dataset) (k : String) : Bool :=
  d.meta.any fun kv => decide (kv.1 = k)

/-- self._meta.get(key, None). -/
def Dataset.getMeta (d : Dataset) (k : String) : Option MetaVal :=
  (d.meta.find? fun kv => decide (kv.1 = k)).map Prod.snd

/-- The resource property getter: self._meta.get("resource", None). -/
def Dataset.resource (d : Dataset) : Option MetaVal :=
  d.getMeta "resource"

/-- Dataset.resource_id: the identifier of the attached resource, or None.
The source reads .id off the stored value; a non-resource value under the
resource key would fail there and is mapped to none here (no claim
exercises that state). -/
def Dataset.resource_id (d : Dataset) : Option Nat :=
  match d.getMeta "resource" with
  | some (MetaVal.mres r) => some r.rid
  | _ => none

/-- The resource property setter: raise ValueError when a resource is
already attached, otherwise store the value under the resource key. -/
def Dataset.setResource (d : Dataset) (v : MetaVal) : Except String Dataset :=
  if d.hasKey "resource" then
    Except.error "Cannot set resource on a dataset more than once"
  else
    Except.ok ⟨d.name, d.meta ++ [("resource", v)]⟩

/-- The creation function DatasetFactory._get_factory_function returns for
the script tag: a dataset named script:<filename> with the resolved parent
directory and the one-element file list.  Path.resolve is a file-system
operation of the external pathlib collaborator and is passed in as a
function. -/
def scriptCreate (resolve : PathM → PathM) (path : PathM) : Dataset :=
  let d0 : Dataset := ⟨"script:" ++ path.name, []⟩
  let d1 := d0.add_meta "directory" (MetaVal.mpath (resolve path.parent))
  d1.add_meta "files" (MetaVal.mfiles [path.name])

/-- The outputs mapping a step function may return: output key to a pair
of a directory path and a file list, in iteration order. -/
abbrev Outputs := List (String × String × List String)

/-- A processing-step function as ManagedWorkflow.run sees it: its fully
qualified name module.name, and the value it returns when invoked (the
function itself is an external callable; only its name and its produced
outputs are observable to the orchestrator). -/
structure StepFn where
  qualname : String
  out : Option Outputs
deriving DecidableEq

/-- The observable outcome of ManagedWorkflow.run: the store afterwards,
whether the step function was invoked, and the Python return value of run.
The source method has no return statement on the execution path and a bare
return on the duplicate path, so ret is the value Python hands back. -/
structure RunResult where
  store : DMF
  executed : Bool
  ret : Option Outputs
deriving DecidableEq

/-- The per-output-key body of the outputs loop in ManagedWorkflow.run:
persist a resource named by the key holding the files under the directory,
then link it to the step with a derived relation. -/
def addOutput (qn : String) (sid : Nat) (acc : DMF) (out : String × String × List String) : DMF :=
  let datafiles := out.2.2.map fun f =>
    DataFile.mk f (DatasetType.RTS_GMLC ++ " file " ++ f)
  let p := acc.addResource out.1 ("Output files for processing step " ++ qn) datafiles out.2.1
  p.1.addRelation ⟨p.2.rid, Predicate.derived, some sid⟩

/-- The execution path of ManagedWorkflow.run (taken when the idempotency
check is skipped or finds nothing): invoke the function, persist a step
resource, link each input with a uses relation, persist and link each
output, commit.  The source guards its two loops with inputs is not None
and with the truthiness of outputs; a None value and an empty list both
yield zero loop iterations, rendered here as a fold over getD [].  The
source falls off the end of the method, so ret is none. -/
def runExec (d : DMF) (fn : StepFn) (inputs : Option (List Dataset)) : RunResult :=
  let p := d.addResource fn.qualname ("Processing step " ++ fn.qualname) [] ""
  { store :=
      (fn.out.getD []).foldl (addOutput fn.qualname p.2.rid)
        ((inputs.getD []).foldl
          (fun acc i => acc.addRelation ⟨p.2.rid, Predicate.uses, i.resource_id⟩) p.1),
    executed := true, ret := none }

/-- The set input_ids built by ManagedWorkflow.run from a non-None inputs
list. -/
def inputIdsOf (inputs : List Dataset) : Finset (Option Nat) :=
  (inputs.map Dataset.resource_id).toFinset

/-- ManagedWorkflow.run.  Inputs arrive already normalized to an optional
list (the source wraps a single non-iterable argument into a list first).
When skip_check is false and some existing step matches, the source logs
and returns None without side effects; otherwise it executes. -/
def ManagedWorkflow.run (d : DMF) (fn : StepFn) (inputs : Option (List Dataset))
    (skip_check : Bool) : RunResult :=
  if skip_check = false ∧ d.stepExists fn.qualname (inputs.map inputIdsOf) = true then
    { store := d, executed := false, ret := none }
  else
    runExec d fn inputs

/-- The datafile list ManagedWorkflow._add_to_dmf builds from the files
metadata entry; absent entry gives the empty list.  A non-list value under
the files key would fail in the source and is mapped to the empty list
here (no claim exercises that state). -/
def metaFiles : Option MetaVal → List String
  | some (MetaVal.mfiles fs) => fs
  | _ => []

/-- The datafiles_dir string ManagedWorkflow._add_to_dmf builds from the
directory metadata entry: str(Path(value).resolve()), with the empty
string when the entry is absent. -/
def metaDirStr (resolve : PathM → PathM) : Option MetaVal → String
  | some (MetaVal.mpath p) => pathStr (resolve p)
  | some (MetaVal.mstr s) => pathStr (resolve (PathM.parse s))
  | _ => ""

/-- ManagedWorkflow._add_to_dmf(ds): persist a resource built from the
dataset metadata and attach it to the dataset through the resource setter;
the setter raise propagates. -/
def ManagedWorkflow.add_to_dmf (resolve : PathM → PathM) (d : DMF) (ds : Dataset) :
    Except String (DMF × Dataset) :=
  let datafile_list := (metaFiles (ds.getMeta "files")).map fun f =>
    DataFile.mk f (DatasetType.RTS_GMLC ++ " file " ++ f)
  let dir := metaDirStr resolve (ds.getMeta "directory")
  let p := d.addResource ds.name "" datafile_list dir
  (ds.setResource (MetaVal.mres p.2)).map fun ds1 => (p.1, ds1)

/-- ManagedWorkflow.run_script(filename): build the script dataset for
downloads/<filename>, branch on how many persisted resources carry its
name, then delegate to run with the script dataset as the sole input.  The
step function rts_gmlc.runner lives in an external module and is passed in
as runnerFn.  dl is the component list of the downloads directory. -/
def ManagedWorkflow.run_script (d : DMF) (resolve : PathM → PathM) (dl : List String)
    (filename : String) (runnerFn : StepFn) : Except String RunResult :=
  match d.find (scriptCreate resolve ⟨dl ++ [filename]⟩).name with
  | [] =>
    match ManagedWorkflow.add_to_dmf resolve d (scriptCreate resolve ⟨dl ++ [filename]⟩) with
    | Except.ok p => Except.ok (ManagedWorkflow.run p.1 runnerFn (some [p.2]) true)
    | Except.error e => Except.error e
  | [r] =>
    match (scriptCreate resolve ⟨dl ++ [filename]⟩).setResource (MetaVal.mres r) with
    | Except.ok ds1 => Except.ok (ManagedWorkflow.run d runnerFn (some [ds1]) false)
    | Except.error e => Except.error e
  | rs =>
    Except.error ("Got " ++ toString rs.length ++
      " resources for script configuration, expected at most one")

/-- The script dataset run_script builds for a downloads directory dl and
a filename; used to phrase theorems about run_script. -/
def scriptDS (resolve : PathM → PathM) (dl : List String) (filename : String) : Dataset :=
  scriptCreate resolve ⟨dl ++ [filename]⟩

/-- One per-stream configuration argument of OutputCollector.__init__:
True, False, or a destination file path. -/
inductive StreamCfg
  | strue
  | sfalse
  | sfile (path : String)
deriving DecidableEq

/-- The method OutputCollector.__init__ records for a stream: _redirect
together with whether the progress argument is a real writer (sys.stdout)
or the literal False, or _vanish. -/
inductive StreamMethod
  | redirect (progressWriter : Bool)
  | vanish
deriving DecidableEq

/-- The per-stream dispatch of OutputCollector.__init__: True gives
_redirect with progress False, False gives _vanish, a path gives _redirect
on the opened file with progress sys.stdout. -/
def methodFor : StreamCfg → StreamMethod
  | StreamCfg.strue => StreamMethod.redirect false
  | StreamCfg.sfalse => StreamMethod.vanish
  | StreamCfg.sfile _ => StreamMethod.redirect true

/-- The collector state after OutputCollector.__init__.  delimAttr none
models the _delim attribute never being assigned, which happens exactly
when phase_delim is absent, None, or the empty string (all falsy); a
string argument is compiled through the external re module, passed in as
the compile function.  The precompiled-pattern and TypeError branches of
the source are outside the string-argument shape modelled here. -/
structure OutputCollector where
  delimAttr : Option (String → Bool)
  methodErr : StreamMethod
  methodOut : StreamMethod

/-- OutputCollector.__init__ for a string-or-absent phase_delim. -/
def OutputCollector.init (compile : String → String → Bool) (phase_delim : Option String)
    (stderrCfg stdoutCfg : StreamCfg) : OutputCollector :=
  { delimAttr :=
      match phase_delim with
      | none => none
      | some s => if s = "" then none else some (compile s)
    methodErr := methodFor stderrCfg
    methodOut := methodFor stdoutCfg }

/-- What a _redirect worker has produced so far: the decoded lines written
to the destination, in order, and the number of progress markers
written. -/
structure RedirState where
  destOut : List String
  marks : Nat
deriving DecidableEq

/-- The two AttributeError failure modes of _redirect: reading the never
assigned _delim attribute, and calling write on the literal False passed
as the progress destination. -/
inductive AttrError
  | missingDelim
  | boolWrite
deriving DecidableEq

/-- The loop body of OutputCollector._redirect over the decoded lines of a
stream: write the line to the destination, then read self._delim (an
AttributeError when never assigned), then on a delimiter match write one
marker to progress and flush (an AttributeError when progress is the
literal False).  An error terminates the worker with the remaining lines
unprocessed. -/
def redirectRun (delim : Option (String → Bool)) (progressWriter : Bool) :
    List String → RedirState → RedirState × Option AttrError
  | [], st => (st, none)
  | l :: rest, st =>
    let st1 : RedirState := { destOut := st.destOut ++ [l], marks := st.marks }
    match delim with
    | none => (st1, some AttrError.missingDelim)
    | some dl =>
      if dl l then
        if progressWriter then
          redirectRun delim progressWriter rest { destOut := st1.destOut, marks := st1.marks + 1 }
        else (st1, some AttrError.boolWrite)
      else
        redirectRun delim progressWriter rest st1

/-- The number of lines of a stream that match the delimiter. -/
def countMatches (dl : String → Bool) : List String → Nat
  | [] => 0
  | l :: rest => (if dl l then 1 else 0) + countMatches dl rest

/-- The resource ManagedWorkflow._add_to_dmf persists for a dataset. -/
def dmfResourceOf (resolve : PathM → PathM) (d : DMF) (ds : Dataset) : Resource :=
  ⟨d.nextId, ds.name, "",
    (metaFiles (ds.getMeta "files")).map fun f =>
      DataFile.mk f (DatasetType.RTS_GMLC ++ " file " ++ f),
    metaDirStr resolve (ds.getMeta "directory")⟩

/-- An empty workspace store, used in concrete example theorems. -/
def wDMF0 : DMF := ⟨[], [], 0⟩

/-- A persisted resource named like the script dataset of a downloads
directory w and a filename a.py, used in concrete example theorems. -/
def wRes (n : Nat) : Resource := ⟨n, "script:a.py", "", [], ""⟩

/-- A store holding exactly one resource named script:a.py. -/
def wDMF1 : DMF := ⟨[wRes 0], [], 1⟩

/-- A store holding two resources named script:a.py. -/
def wDMF2 : DMF := ⟨[wRes 0, wRes 1], [], 2⟩

/-- A concrete step function with no outputs, used in examples. -/
def wFn : StepFn := ⟨"m.r", none⟩

/-- A concrete input dataset with an attached resource, used in
examples. -/
def wInput : Dataset := ⟨"rts-gmlc", [("resource", MetaVal.mres ⟨5, "rts-gmlc", "", [], ""⟩)]⟩

/-- A concrete step function producing one output entry, used in
examples. -/
def wStep : StepFn := ⟨"m.f", some [("k", "o", ["f1.txt"])]⟩

/-- The first of two identical run invocations of the examples. -/
def wRun1 : RunResult := ManagedWorkflow.run wDMF0 wStep (some [wInput]) false

/-- The second of two identical run invocations of the examples. -/
def wRun2 : RunResult := ManagedWorkflow.run wRun1.store wStep (some [wInput]) false

/-! ## Helper lemmas -/

/-- Dict assignment stores the assigned value under the assigned key. -/
theorem find_addMetaList (l : List (String × MetaVal)) (k : String) (v : MetaVal) :
    (addMetaList l k v).find? (fun kv => decide (kv.1 = k)) = some (k, v) := by
  induction l with
  | nil => simp [addMetaList]
  | cons a t ih =>
    by_cases ha : a.1 = k
    · simp [addMetaList, ha]
    · simp only [addMetaList, if_neg ha]
      rw [List.find?_cons_of_neg _ (by simpa using ha)]
      exact ih

/-- add_meta always stores the assigned value. -/
theorem getMeta_add_meta (d : Dataset) (k : String) (v : MetaVal) :
    (d.add_meta k v).getMeta k = some v := by
  simp [Dataset.add_meta, Dataset.getMeta, find_addMetaList]

/-- The membership test agrees with the lookup. -/
theorem hasKey_eq_isSome (d : Dataset) (k : String) :
    d.hasKey k = (d.getMeta k).isSome := by
  simp only [Dataset.hasKey, Dataset.getMeta, Option.isSome_map']
  induction d.meta with
  | nil => rfl
  | cons a t ih =>
    by_cases h : a.1 = k
    · rw [List.any_cons, List.find?_cons_of_pos _ (by simpa using h)]
      simp [h]
    · rw [List.any_cons, List.find?_cons_of_neg _ (by simpa using h)]
      simp [h, ih]

/-- The step-executing path always reports an execution. -/
theorem runExec_executed (d : DMF) (fn : StepFn) (i : Option (List Dataset)) :
    (runExec d fn i).executed = true := rfl

/-- The step-executing path returns the Python None. -/
theorem runExec_ret (d : DMF) (fn : StepFn) (i : Option (List Dataset)) :
    (runExec d fn i).ret = none := rfl

/-- run with the check disabled always executes. -/
theorem run_skip_executed (d : DMF) (fn : StepFn) (i : Option (List Dataset)) :
    (ManagedWorkflow.run d fn i true).executed = true := by
  unfold ManagedWorkflow.run
  rw [if_neg (by rintro ⟨h, -⟩; cases h)]
  rfl

/-- The uses-identifier set is empty exactly when the step recorded no
uses relations. -/
theorem usesIdsOf_eq_empty (d : DMF) (sid : Nat) :
    (d.usesIdsOf sid = (∅ : Finset (Option Nat))) ↔ d.usesRelsOf sid = [] := by
  unfold DMF.usesIdsOf
  rw [List.toFinset_eq_empty_iff, List.map_eq_nil_iff]

/-! ## C3: the resource setter rejects a second assignment -/

/-- C3: for every Dataset, assigning the resource property twice raises
the invalid-state error (a ValueError in the source) on the second
assignment, and the first-set value is retained: the resource getter of
the dataset produced by the first assignment still returns the first
value. -/
theorem dataset_resource_set_twice (d : Dataset) (v w : MetaVal) (d1 : Dataset)
    (h : d.setResource v = Except.ok d1) :
    (∃ msg, d1.setResource w = Except.error msg) ∧ d1.resource = some v := by
  have hk : d.hasKey "resource" = false := by
    cases hkc : d.hasKey "resource" with
    | false => rfl
    | true =>
      unfold Dataset.setResource at h
      rw [hkc] at h
      simp at h
  unfold Dataset.setResource at h
  rw [hk] at h
  simp only [Bool.false_eq_true, if_false, Except.ok.injEq] at h
  subst h
  have hk2 : (Dataset.mk d.name (d.meta ++ [("resource", v)])).hasKey "resource" = true := by
    unfold Dataset.hasKey at hk ⊢
    rw [List.any_append, hk]
    rfl
  constructor
  · refine ⟨"Cannot set resource on a dataset more than once", ?_⟩
    unfold Dataset.setResource
    rw [hk2]
    rfl
  · have hanyf : d.meta.any (fun kv => decide (kv.1 = "resource")) = false := hk
    have hfn : d.meta.find? (fun kv => decide (kv.1 = "resource")) = none := by
      rw [List.find?_eq_none]
      exact List.any_eq_false.mp hanyf
    simp [Dataset.resource, Dataset.getMeta, List.find?_append, hfn]

/-- Concrete instance of the double-assignment theorem: a dataset built by
one successful resource assignment rejects a second one and keeps the
first value. -/
theorem dataset_resource_set_twice_witness :
    (∃ msg, (Dataset.mk "x" [("resource", MetaVal.mres ⟨1, "a", "", [], ""⟩)]).setResource
        (MetaVal.mres ⟨2, "b", "", [], ""⟩) = Except.error msg) ∧
    (Dataset.mk "x" [("resource", MetaVal.mres ⟨1, "a", "", [], ""⟩)]).resource
      = some (MetaVal.mres ⟨1, "a", "", [], ""⟩) :=
  dataset_resource_set_twice (Dataset.mk "x" []) (MetaVal.mres ⟨1, "a", "", [], ""⟩)
    (MetaVal.mres ⟨2, "b", "", [], ""⟩) (Dataset.mk "x" [("resource", MetaVal.mres ⟨1, "a", "", [], ""⟩)])
    rfl

/-! ## C4: mutability of the resource metadata entry -/

/-- C4 counterexample: a dataset whose resource entry was set through the
setter can have that entry silently overwritten by add_meta with key
resource, so not every overwrite attempt is an error. -/
theorem resource_overwrite_cex :
    (Dataset.mk "x" []).setResource (MetaVal.mres ⟨1, "a", "", [], ""⟩)
      = Except.ok (Dataset.mk "x" [("resource", MetaVal.mres ⟨1, "a", "", [], ""⟩)]) ∧
    ((Dataset.mk "x" [("resource", MetaVal.mres ⟨1, "a", "", [], ""⟩)]).add_meta "resource"
        (MetaVal.mres ⟨2, "b", "", [], ""⟩)).resource
      = some (MetaVal.mres ⟨2, "b", "", [], ""⟩) ∧
    some (MetaVal.mres (⟨2, "b", "", [], ""⟩ : Resource))
      ≠ some (MetaVal.mres (⟨1, "a", "", [], ""⟩ : Resource)) := by
  refine ⟨rfl, rfl, by decide⟩

/-- C4 amended: the resource entry is immutable under the resource setter
only; Dataset.add_meta with key resource overwrites it unconditionally and
without an error. -/
theorem resource_meta_overwrite (d : Dataset) (v w : MetaVal)
    (h : (d.getMeta "resource").isSome = true) :
    (∃ msg, d.setResource w = Except.error msg) ∧
    (d.add_meta "resource" v).getMeta "resource" = some v := by
  refine ⟨⟨"Cannot set resource on a dataset more than once", ?_⟩, getMeta_add_meta d "resource" v⟩
  unfold Dataset.setResource
  rw [hasKey_eq_isSome, h]
  rfl

/-- Concrete instance of the amended mutability theorem. -/
theorem resource_meta_overwrite_witness :
    (∃ msg, (Dataset.mk "x" [("resource", MetaVal.mres ⟨1, "a", "", [], ""⟩)]).setResource
        (MetaVal.mres ⟨3, "c", "", [], ""⟩) = Except.error msg) ∧
    ((Dataset.mk "x" [("resource", MetaVal.mres ⟨1, "a", "", [], ""⟩)]).add_meta "resource"
        (MetaVal.mres ⟨2, "b", "", [], ""⟩)).getMeta "resource"
      = some (MetaVal.mres ⟨2, "b", "", [], ""⟩) :=
  resource_meta_overwrite (Dataset.mk "x" [("resource", MetaVal.mres ⟨1, "a", "", [], ""⟩)])
    (MetaVal.mres ⟨2, "b", "", [], ""⟩) (MetaVal.mres ⟨3, "c", "", [], ""⟩) rfl

/-! ## C5: the script factory function -/

/-- C5 counterexample: the dataset built by the script factory is not
named by the bare filename; its name carries the script: prefix. -/
theorem script_name_cex :
    (scriptCreate id ⟨["home", "user", "foo.py"]⟩).name
      ≠ (⟨["home", "user", "foo.py"]⟩ : PathM).name := by
  decide

/-- C5 amended: the script factory builds a dataset whose name is the
string script: followed by the filename (the last path component), whose
directory metadata is the resolved parent of the path, and whose files
metadata is the one-element list holding the filename. -/
theorem script_factory_fields (resolve : PathM → PathM) (p : PathM) :
    (scriptCreate resolve p).name = "script:" ++ p.name ∧
    (scriptCreate resolve p).getMeta "directory" = some (MetaVal.mpath (resolve p.parent)) ∧
    (scriptCreate resolve p).getMeta "files" = some (MetaVal.mfiles [p.name]) :=
  ⟨rfl, rfl, rfl⟩

/-! ## C9: None inputs versus empty inputs -/

/-- C9: run with inputs None and run with an empty inputs list make the
same idempotency decision, and that shared decision holds exactly when
some existing resource carrying the step name has zero outgoing uses
relations. -/
theorem run_none_empty_equiv (d : DMF) (fn : StepFn) :
    (ManagedWorkflow.run d fn none false).executed
      = (ManagedWorkflow.run d fn (some []) false).executed ∧
    d.stepExists fn.qualname none
      = d.stepExists fn.qualname (some (∅ : Finset (Option Nat))) ∧
    (d.stepExists fn.qualname none = true ↔
      ∃ r ∈ d.find fn.qualname, d.usesRelsOf r.rid = []) := by
  refine ⟨rfl, rfl, ?_⟩
  unfold DMF.stepExists
  rw [List.any_eq_true]
  constructor
  · rintro ⟨ps, hmem, hps⟩
    exact ⟨ps, hmem, (usesIdsOf_eq_empty d ps.rid).mp (of_decide_eq_true hps)⟩
  · rintro ⟨ps, hmem, hps⟩
    exact ⟨ps, hmem, decide_eq_true ((usesIdsOf_eq_empty d ps.rid).mpr hps)⟩

/-! ## C10: the missing delimiter attribute -/

/-- C10: a collector built without a phase delimiter never assigns the
delimiter attribute, both redirecting configurations (destination true and
a destination file path) use the redirect worker, and that worker fails
with the attribute error on the first line it reads, after writing that
one line to the destination and before any later line is processed. -/
theorem redirect_missing_delim (compile : String → String → Bool)
    (eCfg oCfg : StreamCfg) (pw : Bool) (l : String) (rest : List String) (st : RedirState) :
    (OutputCollector.init compile none eCfg oCfg).delimAttr = none ∧
    methodFor StreamCfg.strue = StreamMethod.redirect false ∧
    (∀ p, methodFor (StreamCfg.sfile p) = StreamMethod.redirect true) ∧
    redirectRun none pw (l :: rest) st
      = ({ destOut := st.destOut ++ [l], marks := st.marks }, some AttrError.missingDelim) :=
  ⟨rfl, rfl, fun _ => rfl, rfl⟩

/-! ## C8: progress marker emission -/

/-- C8 counterexample: with a delimiter configured and the stream
destination set to true, the collector hands the literal False as the
progress destination; on a stream whose single line matches the delimiter
(so the claim demands exactly one marker) the worker writes zero markers
and aborts with the attribute error from calling write on False. -/
theorem redirect_true_dest_cex :
    methodFor StreamCfg.strue = StreamMethod.redirect false ∧
    countMatches (fun s => decide (s = "phase done")) ["phase done"] = 1 ∧
    redirectRun (some fun s => decide (s = "phase done")) false ["phase done"] ⟨[], 0⟩
      = (⟨["phase done"], 0⟩, some AttrError.boolWrite) := by
  refine ⟨rfl, rfl, rfl⟩

/-- C8 amended: with a delimiter matching exactly k of the lines of a
stream, exactly k markers are emitted when the progress destination is a
real writer, which is the configuration of file-path destinations; a
destination configured as true receives the literal False as progress
destination instead, and its worker aborts with an attribute error on the
first matching line, having emitted no marker. -/
theorem redirect_marker_count (dl : String → Bool) (p : String) :
    (∀ (lines : List String) (st : RedirState),
      redirectRun (some dl) true lines st
        = ({ destOut := st.destOut ++ lines, marks := st.marks + countMatches dl lines }, none)) ∧
    methodFor (StreamCfg.sfile p) = StreamMethod.redirect true ∧
    methodFor StreamCfg.strue = StreamMethod.redirect false ∧
    (∀ (l : String) (rest : List String) (st : RedirState), dl l = true →
      redirectRun (some dl) false (l :: rest) st
        = ({ destOut := st.destOut ++ [l], marks := st.marks }, some AttrError.boolWrite)) := by
  refine ⟨?_, rfl, rfl, ?_⟩
  · intro lines
    induction lines with
    | nil => intro st; simp [redirectRun, countMatches]
    | cons l rest ih =>
      intro st
      by_cases hd : dl l
      · simp only [redirectRun, hd, if_true, ih, countMatches]
        simp only [Prod.mk.injEq, RedirState.mk.injEq, and_true]
        refine ⟨by simp [List.append_assoc], by omega⟩
      · simp only [redirectRun, hd, if_false, Bool.false_eq_true, ih, countMatches]
        simp only [Prod.mk.injEq, RedirState.mk.injEq, and_true]
        refine ⟨by simp [List.append_assoc], by omega⟩
  · intro l rest st hdl
    simp [redirectRun, hdl]

/-- Concrete instance of the amended marker-count theorem: two lines with
one delimiter match yield exactly one marker for a writer progress
destination, and an immediate attribute error with zero markers for the
False progress destination of a true-configured stream. -/
theorem redirect_marker_count_witness :
    redirectRun (some fun s => decide (s = "p")) true ["a", "p"] ⟨[], 0⟩
      = (⟨["a", "p"], 1⟩, none) ∧
    methodFor (StreamCfg.sfile "f.txt") = StreamMethod.redirect true ∧
    methodFor StreamCfg.strue = StreamMethod.redirect false ∧
    redirectRun (some fun s => decide (s = "p")) false ["p"] ⟨[], 0⟩
      = (⟨["p"], 0⟩, some AttrError.boolWrite) := by
  have h := redirect_marker_count (fun s => decide (s = "p")) "f.txt"
  exact ⟨h.1 ["a", "p"] ⟨[], 0⟩, h.2.1, h.2.2.1, h.2.2.2 "p" [] ⟨[], 0⟩ (by decide)⟩

/-! ## C2: the return value of run and run_script -/

/-- C2 counterexample: on an empty store a step function producing a
non-empty outputs mapping is executed, yet run returns None rather than
the produced mapping (the source method has no return statement on the
execution path). -/
theorem run_ret_cex :
    (ManagedWorkflow.run ⟨[], [], 0⟩ ⟨"m.f", some [("k", "o", ["a"])]⟩ none false).executed = true ∧
    (⟨"m.f", some [("k", "o", ["a"])]⟩ : StepFn).out = some [("k", "o", ["a"])] ∧
    (ManagedWorkflow.run ⟨[], [], 0⟩ ⟨"m.f", some [("k", "o", ["a"])]⟩ none false).ret
      ≠ some [("k", "o", ["a"])] := by
  refine ⟨rfl, rfl, by decide⟩

/-- C2 amended: run always returns None, both on the duplicate path and
after executing the step function, whatever outputs the function
produced; run_script, which returns the value of its delegated run call,
likewise returns None whenever it does not raise. -/
theorem run_returns_none (d : DMF) (fn : StepFn) (inputs : Option (List Dataset)) (sk : Bool)
    (resolve : PathM → PathM) (dl : List String) (fname : String) (rfn : StepFn) :
    (ManagedWorkflow.run d fn inputs sk).ret = none ∧
    (∀ r, ManagedWorkflow.run_script d resolve dl fname rfn = Except.ok r → r.ret = none) := by
  have hrun : ∀ (d0 : DMF) (fn0 : StepFn) (i0 : Option (List Dataset)) (sk0 : Bool),
      (ManagedWorkflow.run d0 fn0 i0 sk0).ret = none := by
    intro d0 fn0 i0 sk0
    unfold ManagedWorkflow.run
    split
    · rfl
    · rfl
  refine ⟨hrun d fn inputs sk, ?_⟩
  intro r hr
  unfold ManagedWorkflow.run_script at hr
  split at hr
  · split at hr
    · injection hr with h
      subst h
      exact hrun _ _ _ _
    · exact Except.noConfusion hr
  · split at hr
    · injection hr with h
      subst h
      exact hrun _ _ _ _
    · exact Except.noConfusion hr
  · exact Except.noConfusion hr

/-- Concrete instance of the None-return theorem, covering both run and a
successfully completing run_script call. -/
theorem run_returns_none_witness :
    (ManagedWorkflow.run wDMF0 wStep none false).ret = none ∧
    Except.map RunResult.ret (ManagedWorkflow.run_script wDMF0 id ["w"] "a.py" wFn)
      = Except.ok none := by
  have h := run_returns_none wDMF0 wStep none false id ["w"] "a.py" wFn
  refine ⟨h.1, ?_⟩
  have hok : (ManagedWorkflow.run_script wDMF0 id ["w"] "a.py" wFn).toOption.isSome = true := by
    decide
  cases hE : ManagedWorkflow.run_script wDMF0 id ["w"] "a.py" wFn with
  | error e =>
    rw [hE] at hok
    exact absurd hok (by simp [Except.toOption])
  | ok r =>
    rw [Except.map, h.2 r hE]

/-! ## C6: the branch structure of run_script -/

/-- _add_to_dmf on a dataset with no attached resource persists one new
resource built from the dataset metadata and attaches it. -/
theorem add_to_dmf_eq (resolve : PathM → PathM) (d : DMF) (ds : Dataset)
    (h : ds.hasKey "resource" = false) :
    ManagedWorkflow.add_to_dmf resolve d ds
      = Except.ok (⟨d.resources ++ [dmfResourceOf resolve d ds], d.relations, d.nextId + 1⟩,
          ⟨ds.name, ds.meta ++ [("resource", MetaVal.mres (dmfResourceOf resolve d ds))]⟩) := by
  unfold ManagedWorkflow.add_to_dmf DMF.addResource Dataset.setResource dmfResourceOf
  rw [h]
  rfl

/-- run_script when no resource carries the script-dataset name: the
dataset is persisted and run is delegated to with the check skipped. -/
theorem run_script_nil (d : DMF) (resolve : PathM → PathM) (dl : List String)
    (filename : String) (rfn : StepFn)
    (h0 : d.find (scriptCreate resolve ⟨dl ++ [filename]⟩).name = []) :
    ManagedWorkflow.run_script d resolve dl filename rfn
      = Except.ok (ManagedWorkflow.run
          ⟨d.resources ++ [dmfResourceOf resolve d (scriptCreate resolve ⟨dl ++ [filename]⟩)],
            d.relations, d.nextId + 1⟩
          rfn
          (some [⟨(scriptCreate resolve ⟨dl ++ [filename]⟩).name,
            (scriptCreate resolve ⟨dl ++ [filename]⟩).meta ++
              [("resource", MetaVal.mres
                  (dmfResourceOf resolve d (scriptCreate resolve ⟨dl ++ [filename]⟩)))]⟩])
          true) := by
  unfold ManagedWorkflow.run_script
  rw [h0, add_to_dmf_eq resolve d (scriptCreate resolve ⟨dl ++ [filename]⟩) rfl]

/-- run_script when exactly one resource carries the script-dataset name:
the resource is attached and run is delegated to with the check active. -/
theorem run_script_one (d : DMF) (resolve : PathM → PathM) (dl : List String)
    (filename : String) (rfn : StepFn) (r : Resource)
    (h1 : d.find (scriptCreate resolve ⟨dl ++ [filename]⟩).name = [r]) :
    ManagedWorkflow.run_script d resolve dl filename rfn
      = Except.ok (ManagedWorkflow.run d rfn
          (some [⟨(scriptCreate resolve ⟨dl ++ [filename]⟩).name,
            (scriptCreate resolve ⟨dl ++ [filename]⟩).meta ++ [("resource", MetaVal.mres r)]⟩])
          false) := by
  unfold ManagedWorkflow.run_script
  rw [h1]
  rfl

/-- run_script when several resources carry the script-dataset name: the
ambiguity error is raised before any execution. -/
theorem run_script_many (d : DMF) (resolve : PathM → PathM) (dl : List String)
    (filename : String) (rfn : StepFn) (r1 r2 : Resource) (rest : List Resource)
    (h2 : d.find (scriptCreate resolve ⟨dl ++ [filename]⟩).name = r1 :: r2 :: rest) :
    ManagedWorkflow.run_script d resolve dl filename rfn
      = Except.error ("Got " ++ toString (r1 :: r2 :: rest).length ++
          " resources for script configuration, expected at most one") := by
  unfold ManagedWorkflow.run_script
  rw [h2]

/-- C6: run_script branches on the number of store matches for the script
dataset name: zero matches persist the dataset as a new resource and run
the step unconditionally with the idempotency check skipped; exactly one
match attaches that resource to the dataset and delegates to run with the
normal check; more than one match raises the ambiguity error without
executing the step. -/
theorem run_script_cases (d : DMF) (resolve : PathM → PathM) (dl : List String)
    (filename : String) (rfn : StepFn) :
    (d.find (scriptCreate resolve ⟨dl ++ [filename]⟩).name = [] →
      ∃ d1 ds1,
        ManagedWorkflow.add_to_dmf resolve d (scriptCreate resolve ⟨dl ++ [filename]⟩)
          = Except.ok (d1, ds1) ∧
        ManagedWorkflow.run_script d resolve dl filename rfn
          = Except.ok (ManagedWorkflow.run d1 rfn (some [ds1]) true) ∧
        (ManagedWorkflow.run d1 rfn (some [ds1]) true).executed = true ∧
        ∃ r, d1.resources = d.resources ++ [r] ∧
          r.name = (scriptCreate resolve ⟨dl ++ [filename]⟩).name ∧
          ds1.resource = some (MetaVal.mres r)) ∧
    (∀ r, d.find (scriptCreate resolve ⟨dl ++ [filename]⟩).name = [r] →
      ∃ ds1,
        (scriptCreate resolve ⟨dl ++ [filename]⟩).setResource (MetaVal.mres r) = Except.ok ds1 ∧
        ManagedWorkflow.run_script d resolve dl filename rfn
          = Except.ok (ManagedWorkflow.run d rfn (some [ds1]) false)) ∧
    (∀ r1 r2 rest, d.find (scriptCreate resolve ⟨dl ++ [filename]⟩).name = r1 :: r2 :: rest →
      ∃ msg, ManagedWorkflow.run_script d resolve dl filename rfn = Except.error msg) := by
  refine ⟨?_, ?_, ?_⟩
  · intro h0
    refine ⟨_, _, add_to_dmf_eq resolve d (scriptCreate resolve ⟨dl ++ [filename]⟩) rfl,
      run_script_nil d resolve dl filename rfn h0, run_skip_executed _ _ _,
      ⟨dmfResourceOf resolve d (scriptCreate resolve ⟨dl ++ [filename]⟩), rfl, rfl, ?_⟩⟩
    rfl
  · intro r h1
    exact ⟨_, rfl, run_script_one d resolve dl filename rfn r h1⟩
  · intro r1 r2 rest h2
    exact ⟨_, run_script_many d resolve dl filename rfn r1 r2 rest h2⟩

/-- Concrete instance of the run_script branch theorem: an empty store, a
store with exactly one matching resource, and a store with two matching
resources each take the stated branch. -/
theorem run_script_cases_witness :
    (∃ d1 ds1,
        ManagedWorkflow.add_to_dmf id wDMF0 (scriptCreate id ⟨["w", "a.py"]⟩)
          = Except.ok (d1, ds1) ∧
        ManagedWorkflow.run_script wDMF0 id ["w"] "a.py" wFn
          = Except.ok (ManagedWorkflow.run d1 wFn (some [ds1]) true) ∧
        (ManagedWorkflow.run d1 wFn (some [ds1]) true).executed = true ∧
        ∃ r, d1.resources = wDMF0.resources ++ [r] ∧
          r.name = (scriptCreate id ⟨["w", "a.py"]⟩).name ∧
          ds1.resource = some (MetaVal.mres r)) ∧
    (∃ ds1,
        (scriptCreate id ⟨["w", "a.py"]⟩).setResource (MetaVal.mres (wRes 0)) = Except.ok ds1 ∧
        ManagedWorkflow.run_script wDMF1 id ["w"] "a.py" wFn
          = Except.ok (ManagedWorkflow.run wDMF1 wFn (some [ds1]) false)) ∧
    (∃ msg, ManagedWorkflow.run_script wDMF2 id ["w"] "a.py" wFn = Except.error msg) := by
  have h0 := run_script_cases wDMF0 id ["w"] "a.py" wFn
  have h1 := run_script_cases wDMF1 id ["w"] "a.py" wFn
  have h2 := run_script_cases wDMF2 id ["w"] "a.py" wFn
  exact ⟨h0.1 rfl, h1.2.1 (wRes 0) rfl, h2.2.2 (wRes 0) (wRes 1) [] rfl⟩

/-! ## C1: running the same step twice executes it once -/

/-- The input-linking loop of run only appends uses relations, one per
input, all with the step identifier as subject. -/
theorem usesFold_relations (sid : Nat) (l : List Dataset) :
    ∀ d1 : DMF,
      l.foldl (fun acc i => acc.addRelation ⟨sid, Predicate.uses, i.resource_id⟩) d1
        = ⟨d1.resources,
            d1.relations ++ l.map fun i => ⟨sid, Predicate.uses, i.resource_id⟩,
            d1.nextId⟩ := by
  induction l with
  | nil => intro d1; simp
  | cons a t ih =>
    intro d1
    rw [List.foldl_cons, ih]
    simp [DMF.addRelation, List.append_assoc]

/-- The output loop of run only appends resources and derived-predicate
relations. -/
theorem outFold_spec (qn : String) (sid : Nat) (outs : Outputs) :
    ∀ d2 : DMF, ∃ rs extra,
      (outs.foldl (addOutput qn sid) d2).resources = d2.resources ++ rs ∧
      (outs.foldl (addOutput qn sid) d2).relations = d2.relations ++ extra ∧
      ∀ rel ∈ extra, rel.predicate = Predicate.derived := by
  induction outs with
  | nil => intro d2; exact ⟨[], [], by simp, by simp, by simp⟩
  | cons o t ih =>
    intro d2
    obtain ⟨rs, extra, h1, h2, h3⟩ := ih (addOutput qn sid d2 o)
    rw [List.foldl_cons]
    refine ⟨⟨d2.nextId, o.1, "Output files for processing step " ++ qn,
        o.2.2.map fun f => DataFile.mk f (DatasetType.RTS_GMLC ++ " file " ++ f),
        o.2.1⟩ :: rs,
      ⟨d2.nextId, Predicate.derived, some sid⟩ :: extra, ?_, ?_, ?_⟩
    · rw [h1, show (addOutput qn sid d2 o).resources
            = d2.resources ++ [⟨d2.nextId, o.1, "Output files for processing step " ++ qn,
                o.2.2.map fun f => DataFile.mk f (DatasetType.RTS_GMLC ++ " file " ++ f),
                o.2.1⟩] from rfl]
      simp
    · rw [h2, show (addOutput qn sid d2 o).relations
            = d2.relations ++ [⟨d2.nextId, Predicate.derived, some sid⟩] from rfl]
      simp
    · intro rel hm
      rcases List.mem_cons.mp hm with h | h
      · subst h; rfl
      · exact h3 rel h

/-- The store produced by the execution path: the step resource, one uses
relation per input, then the output loop. -/
theorem runExec_store (d : DMF) (fn : StepFn) (inputs : List Dataset) :
    (runExec d fn (some inputs)).store
      = (fn.out.getD []).foldl (addOutput fn.qualname d.nextId)
          ⟨d.resources ++ [⟨d.nextId, fn.qualname, "Processing step " ++ fn.qualname, [], ""⟩],
            d.relations ++ inputs.map fun i => ⟨d.nextId, Predicate.uses, i.resource_id⟩,
            d.nextId + 1⟩ := by
  unfold runExec DMF.addResource
  dsimp only
  rw [usesFold_relations]
  rfl

/-- C1: on a well-formed store holding no step resource named like the
step function whose uses-identifier set equals that of the given inputs,
calling run twice with the same step function, the same inputs and
skip_check false executes the function exactly once: the first call
executes, the second call finds an existing step resource named like the
step whose outgoing uses-target identifier set equals the input identifier
set, does not execute, and leaves the store exactly as the first call left
it (no resource and no relation is added). -/
theorem run_twice_executes_once (d : DMF) (fn : StepFn) (inputs : List Dataset)
    (hwf : d.WF)
    (hnew : d.stepExists fn.qualname (some (inputIdsOf inputs)) = false) :
    (ManagedWorkflow.run d fn (some inputs) false).executed = true ∧
    (ManagedWorkflow.run (ManagedWorkflow.run d fn (some inputs) false).store fn (some inputs)
        false).executed = false ∧
    (ManagedWorkflow.run (ManagedWorkflow.run d fn (some inputs) false).store fn (some inputs)
        false).store = (ManagedWorkflow.run d fn (some inputs) false).store ∧
    ∃ ps ∈ (ManagedWorkflow.run d fn (some inputs) false).store.find fn.qualname,
      (ManagedWorkflow.run d fn (some inputs) false).store.usesIdsOf ps.rid
        = inputIdsOf inputs := by
  have hr1 : ManagedWorkflow.run d fn (some inputs) false = runExec d fn (some inputs) := by
    unfold ManagedWorkflow.run
    rw [if_neg]
    rintro ⟨-, hc⟩
    rw [Option.map_some'] at hc
    rw [hnew] at hc
    exact absurd hc (by simp)
  obtain ⟨rs, extra, hres, hrel, hder⟩ :=
    outFold_spec fn.qualname d.nextId (fn.out.getD [])
      ⟨d.resources ++ [⟨d.nextId, fn.qualname, "Processing step " ++ fn.qualname, [], ""⟩],
        d.relations ++ inputs.map fun i => ⟨d.nextId, Predicate.uses, i.resource_id⟩,
        d.nextId + 1⟩
  have husesRels : (runExec d fn (some inputs)).store.usesRelsOf d.nextId
      = inputs.map fun i => ⟨d.nextId, Predicate.uses, i.resource_id⟩ := by
    rw [DMF.usesRelsOf, runExec_store, hrel]
    dsimp only
    rw [List.filter_append, List.filter_append]
    rw [List.filter_eq_nil_iff.mpr ?hold, List.filter_eq_self.mpr ?huse,
      List.filter_eq_nil_iff.mpr ?hextra]
    · simp
    case hold =>
      intro rel hmem hp
      obtain ⟨hsubj, -⟩ := of_decide_eq_true hp
      exact absurd hsubj (Nat.ne_of_lt (hwf.2 rel hmem))
    case huse =>
      intro rel hmem
      obtain ⟨i, hi, hh⟩ := List.mem_map.mp hmem
      subst hh
      exact decide_eq_true ⟨rfl, rfl⟩
    case hextra =>
      intro rel hmem hp
      obtain ⟨-, hpu⟩ := of_decide_eq_true hp
      rw [hder rel hmem] at hpu
      exact Predicate.noConfusion hpu
  have husesIds : (runExec d fn (some inputs)).store.usesIdsOf d.nextId = inputIdsOf inputs := by
    rw [DMF.usesIdsOf, husesRels, List.map_map]
    rfl
  have hmem : (⟨d.nextId, fn.qualname, "Processing step " ++ fn.qualname, [], ""⟩ : Resource)
      ∈ (runExec d fn (some inputs)).store.find fn.qualname := by
    rw [DMF.find, runExec_store, hres]
    dsimp only
    refine List.mem_filter.mpr ⟨?_, decide_eq_true rfl⟩
    exact List.mem_append_left _ (List.mem_append_right _ (List.mem_singleton_self _))
  have hex2 : (runExec d fn (some inputs)).store.stepExists fn.qualname
      (some (inputIdsOf inputs)) = true := by
    rw [DMF.stepExists, List.any_eq_true]
    exact ⟨_, hmem, decide_eq_true husesIds⟩
  have hr2 : ManagedWorkflow.run (runExec d fn (some inputs)).store fn (some inputs) false
      = ⟨(runExec d fn (some inputs)).store, false, none⟩ := by
    unfold ManagedWorkflow.run
    rw [if_pos ⟨rfl, hex2⟩]
  rw [hr1, hr2]
  exact ⟨rfl, rfl, rfl, ⟨_, hmem, husesIds⟩⟩

/-- Concrete instance of the once-only execution theorem: on the empty
store, running a step with one resource-backed input twice executes it the
first time only, and the second call leaves the store untouched. -/
theorem run_twice_executes_once_witness :
    wRun1.executed = true ∧ wRun2.executed = false ∧ wRun2.store = wRun1.store ∧
    ∃ ps ∈ wRun1.store.find "m.f", wRun1.store.usesIdsOf ps.rid = inputIdsOf [wInput] :=
  run_twice_executes_once wDMF0 wStep [wInput]
    (by constructor <;> intro x hx <;> simp [wDMF0] at hx) rfl
